import Mathlib

/-!
Verification of the aggregation and projection calculations of a personal
net-worth and expense tracking application.  The Python sources are shallowly
embedded: dataframes become lists of rows, a pandas groupby-sum becomes an
association-list aggregation, Python dictionaries become association lists,
and values missing after a reindex become `none`.  Monetary amounts are
modelled as rationals; the growth-projection functions, which use logarithms
and fractional powers, are modelled over the reals.
-/

namespace NetworthTracker

/-- Sum of the amounts of the rows of `l` whose key is `k`: the meaning of a
grouped sum for one group. -/
def sumFor {α : Type} [DecidableEq α] (k : α) (l : List (α × ℚ)) : ℚ :=
  ((l.filter fun p => decide (p.1 = k)).map Prod.snd).sum

/-- One aggregation step: add amount `v` under key `k` to the association
list `acc`, merging with the existing entry for `k` when there is one. -/
def addTo {α : Type} [DecidableEq α] : List (α × ℚ) → α → ℚ → List (α × ℚ)
  | [], k, v => [(k, v)]
  | (k', v') :: rest, k, v =>
      if k = k' then (k', v' + v) :: rest else (k', v') :: addTo rest k v

/-- Tail of the aggregation: fold the remaining rows into the accumulator. -/
def groupSumAux {α : Type} [DecidableEq α] :
    List (α × ℚ) → List (α × ℚ) → List (α × ℚ)
  | acc, [] => acc
  | acc, p :: rest => groupSumAux (addTo acc p.1 p.2) rest

/-- `df.groupby(key)[amount].sum()`: one entry per distinct key of `l`,
holding the sum of the amounts filed under that key. -/
def groupSum {α : Type} [DecidableEq α] (l : List (α × ℚ)) : List (α × ℚ) :=
  groupSumAux [] l

/-- Association-list lookup (a Python dict `.get`). -/
def alookup {α : Type} [DecidableEq α] (k : α) : List (α × ℚ) → Option ℚ
  | [] => none
  | (k', v) :: rest => if k = k' then some v else alookup k rest

/-- Elementwise absolute value on the amounts (`.apply(abs)`). -/
def mapAbs {α : Type} (l : List (α × ℚ)) : List (α × ℚ) :=
  l.map fun p => (p.1, |p.2|)

/-- Result record of `calculate_expense_summary`. -/
structure ExpenseSummary where
  total_spent : ℚ
  total_budget : ℚ
  remaining : ℚ
  num_transactions : ℕ
  avg_transaction : ℚ
deriving DecidableEq

/-- `calculate_expense_summary` (src/data/expense_calculations.py):
`total_spent = abs(df['amount'].sum())`, `total_budget =
sum(budgets.values()) * num_months`, `remaining = total_budget -
total_spent`, `num_transactions = len(df)`, and `avg_transaction =
total_spent / num_transactions if num_transactions > 0 else 0`.
The dataframe is modelled by its amount column. -/
def calculate_expense_summary (df : List ℚ) (budgets : List (String × ℚ))
    (num_months : ℕ) : ExpenseSummary :=
  let total_spent := |df.sum|
  let total_budget := (budgets.map Prod.snd).sum * (num_months : ℚ)
  { total_spent := total_spent
    total_budget := total_budget
    remaining := total_budget - total_spent
    num_transactions := df.length
    avg_transaction :=
      if 0 < df.length then total_spent / df.length else 0 }

/-- Insert one row into a list kept in descending order of amount
(model of a pandas descending sort). -/
def insertDesc {α : Type} (p : α × ℚ) : List (α × ℚ) → List (α × ℚ)
  | [] => [p]
  | q :: rest => if q.2 ≤ p.2 then p :: q :: rest else q :: insertDesc p rest

/-- `sort_values(ascending=False)` on the amount column. -/
def sortDesc {α : Type} : List (α × ℚ) → List (α × ℚ)
  | [] => []
  | p :: rest => insertDesc p (sortDesc rest)

/-- `calculate_category_spending` (src/data/expense_calculations.py):
group the transactions by category, sum the signed amounts of each group,
convert each group's sum to its absolute value, and sort descending. -/
def calculate_category_spending (df : List (String × ℚ)) :
    List (String × ℚ) :=
  sortDesc (mapAbs (groupSum df))

/-- One row of the budget comparison table. -/
structure BudgetRow where
  category : String
  budget : ℚ
  spent : ℚ
  remaining : ℚ
  percentage : ℚ
deriving DecidableEq

/-- `calculate_budget_comparison` (src/data/expense_calculations.py):
`category_spending = df.groupby('category')['amount'].sum().apply(abs)
.to_dict()`, then one output row per entry of the `budgets` dict, with
`scaled_budget = monthly_budget * num_months`,
`spent = category_spending.get(category, 0)`,
`remaining = scaled_budget - spent`, and
`percentage = spent / scaled_budget * 100 if scaled_budget > 0 else 0`. -/
def calculate_budget_comparison (df : List (String × ℚ))
    (budgets : List (String × ℚ)) (num_months : ℕ) : List BudgetRow :=
  let category_spending := mapAbs (groupSum df)
  budgets.map fun b =>
    let scaled_budget := b.2 * (num_months : ℚ)
    let spent := (alookup b.1 category_spending).getD 0
    { category := b.1
      budget := scaled_budget
      spent := spent
      remaining := scaled_budget - spent
      percentage := if 0 < scaled_budget then spent / scaled_budget * 100 else 0 }

/-- The fixed Monday-through-Sunday ordering used by the reindex. -/
def day_order : List String :=
  ["Monday", "Tuesday", "Wednesday", "Thursday", "Friday", "Saturday", "Sunday"]

/-- `dt.day_name()` for a date represented as a count of days since
1970-01-01 (which was a Thursday, weekday index 3 with Monday = 0). -/
def dayName (d : ℕ) : String :=
  day_order.getD ((d + 3) % 7) ""

/-- `calculate_spending_by_dow` (src/data/expense_calculations.py):
derive each transaction's weekday name, group by it, sum each group's
signed amounts, apply absolute value, and `reindex(day_order)`.  A weekday
absent from the grouped result has no value after the reindex (a pandas
NaN), modelled as `none`.  Dates are modelled as day counts since
1970-01-01. -/
def calculate_spending_by_dow (df : List (ℕ × ℚ)) :
    List (String × Option ℚ) :=
  let dow := df.map fun p => (dayName p.1, p.2)
  let g := mapAbs (groupSum dow)
  day_order.map fun day => (day, alookup day g)

/-- Pandas `.min()` of a series (junk value 0 for an empty series). -/
def seriesMin : List ℚ → ℚ
  | [] => 0
  | x :: xs => xs.foldl min x

/-- Pandas `.max()` of a series (junk value 0 for an empty series). -/
def seriesMax : List ℚ → ℚ
  | [] => 0
  | x :: xs => xs.foldl max x

/-- Running maximum of a list given the maximum `m` seen so far:
the tail of `expanding().max()`. -/
def runningMaxFrom (m : ℚ) : List ℚ → List ℚ
  | [] => []
  | x :: xs => max m x :: runningMaxFrom (max m x) xs

/-- `expanding().max()`: element `i` is the maximum of elements `0..i`. -/
def expandingMax : List ℚ → List ℚ
  | [] => []
  | c :: cs => c :: runningMaxFrom c cs

/-- `cumulative = values / values.iloc[0]`: the series normalized to 1.0 at
its start. -/
def normalizeSeries : List ℚ → List ℚ
  | [] => []
  | v0 :: rest => (v0 :: rest).map fun v => v / v0

/-- Drawdown series of a valuation series (src/ui/charts.py
`create_drawdown_chart` and src/ui/views/stock_tracker/risk_analysis.py
`_render_risk_summary`): normalize the series to 1.0 at its start, take the
running maximum, and form `(cumulative - running_max) / running_max * 100`. -/
def drawdown_series (values : List ℚ) : List ℚ :=
  List.zipWith (fun c m => (c - m) / m * 100) (normalizeSeries values)
    (expandingMax (normalizeSeries values))

/-- `max_drawdown = drawdown.min()`. -/
def max_drawdown (values : List ℚ) : ℚ :=
  seriesMin (drawdown_series values)

/-- The fixed ascending milestone list of `show_growth_over_time`
(src/ui/views/networth_tracker/growth_over_time.py). -/
def milestones : List ℚ :=
  [100000, 250000, 500000, 750000, 1000000, 1500000, 2000000]

/-- Milestone markers of `show_growth_over_time`: a milestone is annotated
when it lies strictly between the series' min and max, at the first index
whose value is at least the milestone
(`totals_df[totals_df[AMOUNT] >= milestone].index[0]`). -/
def milestone_marks (series : List ℚ) : List (ℚ × ℕ) :=
  milestones.filterMap fun m =>
    if seriesMin series < m ∧ m < seriesMax series then
      some (m, series.findIdx fun v => decide (m ≤ v))
    else none

/-- Compounding frequency selector of the growth-projection view. -/
inductive CompoundFreq where
  | monthly : CompoundFreq
  | annually : CompoundFreq
deriving DecidableEq

/-- Derived monthly rate (src/growth_projections_view.py): with
`annual_rate = annual_return_rate / 100`, monthly compounding gives
`annual_rate / 12` and annual compounding gives
`(1 + annual_rate) ** (1/12) - 1`. -/
noncomputable def monthlyRate (annual_return_rate : ℝ) :
    CompoundFreq → ℝ
  | CompoundFreq.monthly => annual_return_rate / 100 / 12
  | CompoundFreq.annually =>
      (1 + annual_return_rate / 100) ^ ((1 : ℝ) / 12) - 1

/-- The `while balance < goal and months < max_months` loop of
`calculate_months_to_goal`, with the remaining iteration allowance as
fuel; returns the final month counter and balance. -/
noncomputable def goalLoop (goal r c : ℝ) : ℕ → ℝ → ℕ → ℕ × ℝ
  | 0, b, m => (m, b)
  | f + 1, b, m =>
      if b < goal then goalLoop goal r c f (b * (1 + r) + c) (m + 1)
      else (m, b)

/-- `calculate_months_to_goal` (src/growth_projections_view.py): returns
`0` when the goal is already met; `None` when the annual rate and the
contribution are both zero; with a zero derived monthly rate, the linear
closed form when the contribution is positive and `None` otherwise; with a
zero contribution, the logarithmic closed form when the current value is
positive and `None` otherwise; and otherwise runs the iterative simulation
capped at 1200 months, returning `None` when the loop's month counter
reached the cap. -/
noncomputable def calculate_months_to_goal (current_value goal_amount
    monthly_contribution annual_return_rate : ℝ)
    (compound_freq : CompoundFreq) : Option ℝ :=
  if goal_amount ≤ current_value then some 0
  else if annual_return_rate = 0 ∧ monthly_contribution = 0 then none
  else
    let monthly_rate := monthlyRate annual_return_rate compound_freq
    if monthly_rate = 0 then
      if 0 < monthly_contribution then
        some ((goal_amount - current_value) / monthly_contribution)
      else none
    else if monthly_contribution = 0 then
      if current_value ≤ 0 then none
      else some (Real.log (goal_amount / current_value) /
        Real.log (1 + monthly_rate))
    else
      let out := goalLoop goal_amount monthly_rate monthly_contribution
        1200 current_value 0
      if 1200 ≤ out.1 then none else some (out.1 : ℝ)

/-- The month-by-month balance trajectory: `balanceIter r c start n` is the
balance after `n` applications of `balance = balance * (1 + r) + c`. -/
def balanceIter (r c start : ℝ) : ℕ → ℝ
  | 0 => start
  | n + 1 => balanceIter r c start n * (1 + r) + c

/-- The row-emitting loop of `generate_projection_data`: each iteration
appends `(month, balance, cumulative contributions, balance - principal -
cumulative contributions)`, stops after the row whose balance has reached
the goal, and otherwise steps the balance and runs down the fuel. -/
noncomputable def projAux (current goal r c : ℝ) :
    ℕ → ℕ → ℝ → ℝ → List (ℕ × ℝ × ℝ × ℝ)
  | 0, month, b, tc => [(month, b, tc, b - current - tc)]
  | f + 1, month, b, tc =>
      (month, b, tc, b - current - tc) ::
        (if goal ≤ b then []
         else projAux current goal r c f (month + 1) (b * (1 + r) + c) (tc + c))

/-- `generate_projection_data` (src/growth_projections_view.py): the
month-by-month trace `(Month, Balance, Contributions, Growth)` from month 0
up to `max_months`, terminating early once the balance reaches the goal. -/
noncomputable def generate_projection_data (current_value goal_amount
    monthly_contribution annual_return_rate : ℝ) (compound_freq : CompoundFreq)
    (max_months : ℕ) : List (ℕ × ℝ × ℝ × ℝ) :=
  projAux current_value goal_amount
    (monthlyRate annual_return_rate compound_freq) monthly_contribution
    max_months 0 current_value 0

/-! ### Association-list aggregation lemmas -/

theorem sumFor_nil {α : Type} [DecidableEq α] (k : α) : sumFor k [] = 0 := rfl

theorem sumFor_cons {α : Type} [DecidableEq α] (k : α) (p : α × ℚ)
    (l : List (α × ℚ)) :
    sumFor k (p :: l) = (if p.1 = k then p.2 else 0) + sumFor k l := by
  by_cases h : p.1 = k <;> simp [sumFor, List.filter_cons, h]

theorem alookup_addTo {α : Type} [DecidableEq α] (j k : α) (v : ℚ)
    (acc : List (α × ℚ)) :
    alookup j (addTo acc k v) =
      if j = k then some ((alookup k acc).getD 0 + v) else alookup j acc := by
  induction acc with
  | nil => by_cases h : j = k <;> simp [addTo, alookup, h]
  | cons q acc ih =>
    obtain ⟨k', v'⟩ := q
    by_cases hkk : k = k'
    · subst hkk
      by_cases hj : j = k <;> simp [addTo, alookup, hj]
    · by_cases hj : j = k'
      · subst hj
        have hjk : ¬ j = k := fun h => hkk h.symm
        simp [addTo, alookup, hkk, hjk, fun h : k = j => hkk h]
      · simp only [addTo, if_neg hkk, alookup, if_neg hj, ih,
          if_neg fun h : k = k' => hkk h]

theorem alookup_groupSumAux_getD {α : Type} [DecidableEq α] (k : α) :
    ∀ (l acc : List (α × ℚ)),
      (alookup k (groupSumAux acc l)).getD 0 =
        (alookup k acc).getD 0 + sumFor k l
  | [], acc => by simp [groupSumAux, sumFor_nil]
  | p :: l, acc => by
    rw [groupSumAux, alookup_groupSumAux_getD k l, alookup_addTo, sumFor_cons]
    by_cases h : k = p.1
    · rw [if_pos h, if_pos h.symm]
      simp only [Option.getD_some]
      rw [h]
      ring
    · rw [if_neg h, if_neg fun hh => h hh.symm]
      ring

theorem alookup_groupSumAux_eq_none {α : Type} [DecidableEq α] (k : α) :
    ∀ (l acc : List (α × ℚ)),
      alookup k (groupSumAux acc l) = none ↔
        alookup k acc = none ∧ ∀ p ∈ l, p.1 ≠ k
  | [], acc => by simp [groupSumAux]
  | p :: l, acc => by
    rw [groupSumAux, alookup_groupSumAux_eq_none k l, alookup_addTo]
    by_cases h : k = p.1
    · rw [if_pos h]
      simp only [reduceCtorEq, false_and, false_iff, not_and, not_forall]
      intro _
      exact ⟨p, by simp [h.symm]⟩
    · rw [if_neg h]
      constructor
      · rintro ⟨h1, h2⟩
        exact ⟨h1, by
          intro q hq
          rcases List.mem_cons.mp hq with rfl | hq
          · exact fun hh => h hh.symm
          · exact h2 q hq⟩
      · rintro ⟨h1, h2⟩
        exact ⟨h1, fun q hq => h2 q (List.mem_cons_of_mem _ hq)⟩

theorem alookup_groupSum_getD {α : Type} [DecidableEq α] (k : α)
    (l : List (α × ℚ)) :
    (alookup k (groupSum l)).getD 0 = sumFor k l := by
  simpa [alookup] using alookup_groupSumAux_getD k l []

theorem alookup_groupSum_eq_none {α : Type} [DecidableEq α] (k : α)
    (l : List (α × ℚ)) :
    alookup k (groupSum l) = none ↔ ∀ p ∈ l, p.1 ≠ k := by
  simpa [alookup] using alookup_groupSumAux_eq_none k l []

theorem sumFor_eq_zero {α : Type} [DecidableEq α] {k : α} {l : List (α × ℚ)}
    (h : ∀ p ∈ l, p.1 ≠ k) : sumFor k l = 0 := by
  induction l with
  | nil => rfl
  | cons p l ih =>
    rw [sumFor_cons, if_neg (h p (List.mem_cons_self p l)),
      ih fun q hq => h q (List.mem_cons_of_mem _ hq), zero_add]

theorem alookup_groupSum_eq_some {α : Type} [DecidableEq α] {k : α}
    {l : List (α × ℚ)} {v : ℚ} (h : alookup k (groupSum l) = some v) :
    v = sumFor k l := by
  have h2 := alookup_groupSum_getD k l
  rw [h, Option.getD_some] at h2
  exact h2

theorem alookup_mapAbs {α : Type} [DecidableEq α] (k : α) :
    ∀ l : List (α × ℚ),
      alookup k (mapAbs l) = (alookup k l).map (fun q => |q|)
  | [] => rfl
  | p :: l => by
    by_cases h : k = p.1
    · simp [mapAbs, alookup, h]
    · simp only [mapAbs, List.map_cons, alookup, if_neg h]
      exact alookup_mapAbs k l

theorem spent_lookup_eq {α : Type} [DecidableEq α] (k : α)
    (df : List (α × ℚ)) :
    (alookup k (mapAbs (groupSum df))).getD 0 = |sumFor k df| := by
  rw [alookup_mapAbs]
  cases h : alookup k (groupSum df) with
  | none =>
    rw [sumFor_eq_zero ((alookup_groupSum_eq_none k df).mp h)]
    simp
  | some v =>
    rw [alookup_groupSum_eq_some h]
    simp

theorem alookup_eq_none_iff_not_mem {α : Type} [DecidableEq α] (j : α) :
    ∀ l : List (α × ℚ), alookup j l = none ↔ j ∉ l.map Prod.fst
  | [] => by simp [alookup]
  | p :: l => by
    by_cases h : j = p.1
    · simp [alookup, h]
    · simp only [alookup, if_neg h, List.map_cons, List.mem_cons,
        alookup_eq_none_iff_not_mem j l]
      constructor
      · intro h1
        rintro (rfl | h2)
        · exact h rfl
        · exact h1 h2
      · intro h1 h2
        exact h1 (Or.inr h2)

theorem mem_keys_groupSum {α : Type} [DecidableEq α] {j : α}
    {l : List (α × ℚ)} :
    j ∈ (groupSum l).map Prod.fst ↔ j ∈ l.map Prod.fst := by
  rw [← not_iff_not, ← alookup_eq_none_iff_not_mem, alookup_groupSum_eq_none]
  constructor
  · intro h hmem
    rcases List.mem_map.mp hmem with ⟨p, hp, hfst⟩
    exact h p hp hfst
  · intro h p hp he
    exact h (he ▸ List.mem_map_of_mem Prod.fst hp)

theorem mem_keys_addTo {α : Type} [DecidableEq α] {j k : α} {v : ℚ} :
    ∀ {acc : List (α × ℚ)}, j ∈ (addTo acc k v).map Prod.fst →
      j ∈ acc.map Prod.fst ∨ j = k
  | [], h => by simpa [addTo] using h
  | (k', v') :: acc, h => by
    by_cases hkk : k = k'
    · simp only [addTo, if_pos hkk, List.map_cons] at h
      exact Or.inl h
    · simp only [addTo, if_neg hkk, List.map_cons, List.mem_cons] at h ⊢
      rcases h with rfl | h
      · exact Or.inl (Or.inl rfl)
      · rcases mem_keys_addTo h with h' | rfl
        · exact Or.inl (Or.inr h')
        · exact Or.inr rfl

theorem keys_addTo_nodup {α : Type} [DecidableEq α] {k : α} {v : ℚ} :
    ∀ {acc : List (α × ℚ)}, (acc.map Prod.fst).Nodup →
      ((addTo acc k v).map Prod.fst).Nodup
  | [], _ => by simp [addTo]
  | (k', v') :: acc, h => by
    by_cases hkk : k = k'
    · simpa [addTo, hkk] using h
    · simp only [addTo, if_neg hkk, List.map_cons, List.nodup_cons] at h ⊢
      refine ⟨?_, keys_addTo_nodup h.2⟩
      intro hmem
      rcases mem_keys_addTo hmem with h1 | rfl
      · exact h.1 h1
      · exact hkk rfl

theorem groupSumAux_keys_nodup {α : Type} [DecidableEq α] :
    ∀ (l acc : List (α × ℚ)), (acc.map Prod.fst).Nodup →
      ((groupSumAux acc l).map Prod.fst).Nodup
  | [], _, h => h
  | p :: l, acc, h =>
    groupSumAux_keys_nodup l (addTo acc p.1 p.2) (keys_addTo_nodup h)

theorem groupSum_keys_nodup {α : Type} [DecidableEq α] (l : List (α × ℚ)) :
    ((groupSum l).map Prod.fst).Nodup :=
  groupSumAux_keys_nodup l [] (by simp)

theorem alookup_of_mem_nodup {α : Type} [DecidableEq α] :
    ∀ {l : List (α × ℚ)}, (l.map Prod.fst).Nodup →
      ∀ {p : α × ℚ}, p ∈ l → alookup p.1 l = some p.2
  | [], _, _, hp => absurd hp (List.not_mem_nil _)
  | q :: l, h, p, hp => by
    rcases List.mem_cons.mp hp with rfl | hp'
    · simp [alookup]
    · simp only [List.map_cons, List.nodup_cons] at h
      have hne : p.1 ≠ q.1 := by
        intro he
        exact h.1 (he ▸ List.mem_map_of_mem Prod.fst hp')
      rw [alookup, if_neg hne]
      exact alookup_of_mem_nodup h.2 hp'

theorem mem_groupSum_val {α : Type} [DecidableEq α] {l : List (α × ℚ)}
    {p : α × ℚ} (hp : p ∈ groupSum l) : p.2 = sumFor p.1 l :=
  alookup_groupSum_eq_some (alookup_of_mem_nodup (groupSum_keys_nodup l) hp)

theorem mem_insertDesc {α : Type} {p a : α × ℚ} :
    ∀ l : List (α × ℚ), a ∈ insertDesc p l ↔ a = p ∨ a ∈ l
  | [] => by simp [insertDesc]
  | q :: l => by
    by_cases h : q.2 ≤ p.2 <;>
      simp [insertDesc, h, mem_insertDesc l, or_left_comm]

theorem mem_sortDesc {α : Type} {a : α × ℚ} :
    ∀ l : List (α × ℚ), a ∈ sortDesc l ↔ a ∈ l
  | [] => Iff.rfl
  | p :: l => by simp [sortDesc, mem_insertDesc, mem_sortDesc l]

/-! ### Claim theorems: expense aggregation -/

/-- C10: for every expenses table with `num_months ≥ 1`, the expense summary
never divides by zero: `avg_transaction = total_spent / num_transactions`
when the table has at least one transaction, and on an empty table
`avg_transaction = 0`, `total_spent = 0`, `remaining = total_budget` and
`num_transactions = 0` are returned rather than an error being raised. -/
theorem expense_summary_safe (df : List ℚ) (budgets : List (String × ℚ))
    (num_months : ℕ) (hm : 1 ≤ num_months) :
    (df = [] →
      (calculate_expense_summary df budgets num_months).avg_transaction = 0 ∧
      (calculate_expense_summary df budgets num_months).total_spent = 0 ∧
      (calculate_expense_summary df budgets num_months).remaining =
        (calculate_expense_summary df budgets num_months).total_budget ∧
      (calculate_expense_summary df budgets num_months).num_transactions = 0) ∧
    (df ≠ [] →
      (calculate_expense_summary df budgets num_months).avg_transaction =
        (calculate_expense_summary df budgets num_months).total_spent /
          (calculate_expense_summary df budgets num_months).num_transactions) := by
  constructor
  · rintro rfl
    simp [calculate_expense_summary]
  · intro hne
    have hlen : 0 < df.length := List.length_pos.mpr hne
    simp [calculate_expense_summary, if_pos hlen]

/-- C10 witness: the summary of an empty table at a concrete budget. -/
theorem expense_summary_safe_witness :
    (calculate_expense_summary [] [("Food", 100)] 2).avg_transaction = 0 ∧
    (calculate_expense_summary [] [("Food", 100)] 2).total_spent = 0 ∧
    (calculate_expense_summary [] [("Food", 100)] 2).remaining =
      (calculate_expense_summary [] [("Food", 100)] 2).total_budget ∧
    (calculate_expense_summary [] [("Food", 100)] 2).num_transactions = 0 :=
  (expense_summary_safe [] [("Food", 100)] 2 (by norm_num)).1 rfl

/-- C1: for every transactions table, budget mapping and `num_months ≥ 1`,
the budget comparison has exactly one row per budget category, in the order
of the budget mapping (so a category with spending but no budget entry
yields no row), and each row satisfies `Budget = monthly_budget *
num_months`, `Spent = |sum of the category's signed amounts|` (0 when the
category has no transactions), `Remaining = Budget - Spent`, and
`Percentage = Spent / Budget * 100` when `Budget > 0` and `0` when
`Budget = 0`. -/
theorem budget_comparison_spec (df budgets : List (String × ℚ))
    (num_months : ℕ) (hm : 1 ≤ num_months) :
    (calculate_budget_comparison df budgets num_months).map BudgetRow.category
      = budgets.map Prod.fst ∧
    ∀ row ∈ calculate_budget_comparison df budgets num_months,
      ∃ mb : ℚ, (row.category, mb) ∈ budgets ∧
        row.budget = mb * num_months ∧
        row.spent = |sumFor row.category df| ∧
        row.remaining = row.budget - row.spent ∧
        (0 < row.budget → row.percentage = row.spent / row.budget * 100) ∧
        (row.budget = 0 → row.percentage = 0) := by
  constructor
  · rw [calculate_budget_comparison, List.map_map]
    rfl
  · intro row hrow
    rw [calculate_budget_comparison] at hrow
    rcases List.mem_map.mp hrow with ⟨b, hb, rfl⟩
    refine ⟨b.2, hb, rfl, spent_lookup_eq b.1 df, rfl, ?_, ?_⟩
    · intro hpos
      simp only at hpos ⊢
      rw [if_pos hpos]
    · intro hzero
      simp only at hzero ⊢
      rw [if_neg]
      rw [hzero]
      exact lt_irrefl 0

/-- C1 witness: a concrete comparison keeps exactly the budget categories,
in order, and computes the documented fields for a category with spending,
a category without spending, and a zero budget. -/
theorem budget_comparison_spec_witness :
    (calculate_budget_comparison [("Food", -30), ("Food", 10)]
        [("Food", 100), ("Rent", 50)] 2).map BudgetRow.category
      = ["Food", "Rent"] :=
  (budget_comparison_spec [("Food", -30), ("Food", 10)]
    [("Food", 100), ("Rent", 50)] 2 (by norm_num)).1

/-- C3: category aggregation applies absolute value after summation: every
row of the result carries `|sum of the category's signed amounts|`, the
result has a row exactly for the categories present in the table, and a
pair of +50 and -50 in one category nets to 0, not to the sum 100 of the
per-transaction absolute values. -/
theorem category_spending_abs_after_sum (df : List (String × ℚ)) :
    (∀ p ∈ calculate_category_spending df, p.2 = |sumFor p.1 df|) ∧
    (∀ k, k ∈ (calculate_category_spending df).map Prod.fst ↔
      k ∈ df.map Prod.fst) ∧
    calculate_category_spending [("Food", 50), ("Food", -50)]
      = [("Food", 0)] ∧
    (0 : ℚ) ≠ |(50 : ℚ)| + |(-50 : ℚ)| := by
  refine ⟨?_, ?_, by
    norm_num [calculate_category_spending, groupSum, groupSumAux, addTo,
      mapAbs, sortDesc, insertDesc], by norm_num⟩
  · intro p hp
    rw [calculate_category_spending, mem_sortDesc] at hp
    rcases List.mem_map.mp hp with ⟨q, hq, rfl⟩
    simp only [mem_groupSum_val hq]
  · intro k
    rw [calculate_category_spending]
    constructor
    · intro hk
      rcases List.mem_map.mp hk with ⟨p, hp, rfl⟩
      rw [mem_sortDesc] at hp
      rcases List.mem_map.mp hp with ⟨q, hq, rfl⟩
      have h1 : q.1 ∈ (groupSum df).map Prod.fst :=
        List.mem_map_of_mem Prod.fst hq
      exact mem_keys_groupSum.mp h1
    · intro hk
      rcases List.mem_map.mp (mem_keys_groupSum.mpr hk) with ⟨q, hq, rfl⟩
      have h2 : (q.1, |q.2|) ∈ sortDesc (mapAbs (groupSum df)) :=
        (mem_sortDesc _).mpr (List.mem_map_of_mem _ hq)
      exact List.mem_map.mpr ⟨(q.1, |q.2|), h2, rfl⟩

/-- C3 witness: the refund-netting instance evaluated concretely. -/
theorem category_spending_abs_after_sum_witness :
    calculate_category_spending [("Food", 50), ("Food", -50)]
      = [("Food", 0)] :=
  (category_spending_abs_after_sum []).2.2.1

/-- C4 (amended): day-of-week aggregation always returns exactly 7 entries
in Monday-through-Sunday order; an entry whose weekday has transactions
carries the absolute value of the summed signed amounts, while a weekday
with no transactions carries a missing value (`none`, a pandas NaN after
the unfilled reindex), not the amount 0. -/
theorem spending_by_dow_amended (df : List (ℕ × ℚ)) :
    (calculate_spending_by_dow df).map Prod.fst = day_order ∧
    (calculate_spending_by_dow df).length = 7 ∧
    ∀ p ∈ calculate_spending_by_dow df,
      (p.2 = none ↔ ∀ q ∈ df, dayName q.1 ≠ p.1) ∧
      ∀ v, p.2 = some v →
        v = |sumFor p.1 (df.map fun q => (dayName q.1, q.2))| := by
  refine ⟨?_, ?_, ?_⟩
  · rw [calculate_spending_by_dow, List.map_map]
    exact List.map_id day_order
  · rw [calculate_spending_by_dow, List.length_map]
    rfl
  · intro p hp
    rw [calculate_spending_by_dow] at hp
    rcases List.mem_map.mp hp with ⟨d, _, rfl⟩
    dsimp only
    constructor
    · rw [alookup_mapAbs, Option.map_eq_none', alookup_groupSum_eq_none]
      constructor
      · intro h q hq
        exact h (dayName q.1, q.2) (List.mem_map_of_mem _ hq)
      · intro h q hq
        rcases List.mem_map.mp hq with ⟨r, hr, rfl⟩
        exact h r hr
    · intro v hv
      rw [alookup_mapAbs] at hv
      rcases Option.map_eq_some'.mp hv with ⟨w, hw, rfl⟩
      rw [alookup_groupSum_eq_some hw]

/-- C4 counterexample: with one Monday transaction (day 4 since 1970-01-01
is a Monday), the Tuesday entry of the day-of-week table carries the
missing value `none`, not the amount 0 the claim asserts. -/
theorem spending_by_dow_cex :
    (calculate_spending_by_dow [(4, -5)])[1]?
        = some ("Tuesday", (none : Option ℚ)) ∧
    (calculate_spending_by_dow [(4, -5)])[1]?
        ≠ some ("Tuesday", some (0 : ℚ)) := by
  constructor
  · rfl
  · intro h
    rw [show (calculate_spending_by_dow [(4, -5)])[1]?
        = some ("Tuesday", (none : Option ℚ)) from rfl] at h
    simp at h

/-! ### Drawdown and milestone lemmas -/

theorem foldl_min_mem : ∀ (xs : List ℚ) (x : ℚ),
    xs.foldl min x = x ∨ xs.foldl min x ∈ xs
  | [], x => Or.inl rfl
  | y :: xs, x => by
    rw [List.foldl_cons]
    rcases foldl_min_mem xs (min x y) with h | h
    · rw [h]
      rcases min_choice x y with h' | h'
      · exact Or.inl h'
      · rw [h']
        exact Or.inr (List.mem_cons_self y xs)
    · exact Or.inr (List.mem_cons_of_mem y h)

theorem foldl_max_mem : ∀ (xs : List ℚ) (x : ℚ),
    xs.foldl max x = x ∨ xs.foldl max x ∈ xs
  | [], x => Or.inl rfl
  | y :: xs, x => by
    rw [List.foldl_cons]
    rcases foldl_max_mem xs (max x y) with h | h
    · rw [h]
      rcases max_choice x y with h' | h'
      · exact Or.inl h'
      · rw [h']
        exact Or.inr (List.mem_cons_self y xs)
    · exact Or.inr (List.mem_cons_of_mem y h)

theorem seriesMin_mem {l : List ℚ} (h : l ≠ []) : seriesMin l ∈ l := by
  match l with
  | x :: xs =>
    rw [seriesMin]
    rcases foldl_min_mem xs x with h' | h'
    · rw [h']
      exact List.mem_cons_self x xs
    · exact List.mem_cons_of_mem x h'

theorem seriesMax_mem {l : List ℚ} (h : l ≠ []) : seriesMax l ∈ l := by
  match l with
  | x :: xs =>
    rw [seriesMax]
    rcases foldl_max_mem xs x with h' | h'
    · rw [h']
      exact List.mem_cons_self x xs
    · exact List.mem_cons_of_mem x h'

theorem drawdown_step_nonpos {c m : ℚ} (hm : 0 ≤ m) (hc : c ≤ m) :
    (c - m) / m * 100 ≤ 0 := by
  rcases hm.lt_or_eq with hpos | hzero
  · have h1 : (c - m) / m ≤ 0 :=
      div_nonpos_of_nonpos_of_nonneg (sub_nonpos.mpr hc) (le_of_lt hpos)
    nlinarith
  · rw [← hzero, div_zero, zero_mul]

theorem drawdown_aux_nonpos :
    ∀ (cs : List ℚ) (m : ℚ), 0 ≤ m →
      ∀ x ∈ List.zipWith (fun c mm => (c - mm) / mm * 100) cs
        (runningMaxFrom m cs), x ≤ 0
  | [], _, _, x, hx => absurd hx (List.not_mem_nil x)
  | c :: cs, m, hm, x, hx => by
    rw [runningMaxFrom, List.zipWith_cons_cons] at hx
    rcases List.mem_cons.mp hx with rfl | hx'
    · exact drawdown_step_nonpos (le_trans hm (le_max_left m c))
        (le_max_right m c)
    · exact drawdown_aux_nonpos cs (max m c)
        (le_trans hm (le_max_left m c)) x hx'

theorem div_self_nonneg_q (v : ℚ) : 0 ≤ v / v := by
  rcases eq_or_ne v 0 with rfl | h
  · simp
  · rw [div_self h]
    norm_num

theorem drawdown_mem_nonpos (values : List ℚ) :
    ∀ x ∈ drawdown_series values, x ≤ 0 := by
  match values with
  | [] => intro x hx; exact absurd hx (List.not_mem_nil x)
  | v0 :: rest =>
    intro x hx
    simp only [drawdown_series, normalizeSeries, List.map_cons, expandingMax,
      List.zipWith_cons_cons] at hx
    rcases List.mem_cons.mp hx with rfl | hx'
    · rw [sub_self, zero_div, zero_mul]
    · exact drawdown_aux_nonpos _ (v0 / v0) (div_self_nonneg_q v0) x hx'

theorem length_runningMaxFrom : ∀ (l : List ℚ) (m : ℚ),
    (runningMaxFrom m l).length = l.length
  | [], _ => rfl
  | x :: xs, m => by
    rw [runningMaxFrom, List.length_cons, List.length_cons,
      length_runningMaxFrom xs (max m x)]

theorem length_expandingMax : ∀ l : List ℚ,
    (expandingMax l).length = l.length
  | [] => rfl
  | c :: cs => by
    rw [expandingMax, List.length_cons, List.length_cons,
      length_runningMaxFrom cs c]

theorem length_normalizeSeries : ∀ l : List ℚ,
    (normalizeSeries l).length = l.length
  | [] => rfl
  | v0 :: rest => by rw [normalizeSeries, List.length_map]

theorem length_drawdown (values : List ℚ) :
    (drawdown_series values).length = values.length := by
  rw [drawdown_series, List.length_zipWith, length_expandingMax,
    length_normalizeSeries, min_self]

theorem zipWith_sub_div_self_zero (cs ms : List ℚ) (i : ℕ)
    (hd : i < (List.zipWith (fun c m => (c - m) / m * 100) cs ms).length)
    (hc : i < cs.length) (hm : i < ms.length) (h : cs[i] = ms[i]) :
    (List.zipWith (fun c m => (c - m) / m * 100) cs ms)[i] = 0 := by
  rw [List.getElem_zipWith, h, sub_self, zero_div, zero_mul]

/-! ### Claim theorems: drawdown and milestones -/

/-- C8: for every valuation series of at least 2 points, the drawdown
series (value minus running maximum, over the running maximum, as a
percentage, on the series normalized to 1.0 at its start) is nonpositive at
every index, equals 0 at every index where the normalized value attains its
running maximum, and hence the reported max drawdown is nonpositive. -/
theorem drawdown_spec (values : List ℚ) (h2 : 2 ≤ values.length) :
    (∀ i (hd : i < (drawdown_series values).length),
      (drawdown_series values)[i] ≤ 0) ∧
    (∀ i (hn : i < (normalizeSeries values).length)
        (hx : i < (expandingMax (normalizeSeries values)).length)
        (hd : i < (drawdown_series values).length),
      (normalizeSeries values)[i] = (expandingMax (normalizeSeries values))[i] →
      (drawdown_series values)[i] = 0) ∧
    max_drawdown values ≤ 0 := by
  refine ⟨?_, ?_, ?_⟩
  · intro i hd
    exact drawdown_mem_nonpos values _ (List.getElem_mem hd)
  · intro i hn hx hd h
    exact zipWith_sub_div_self_zero _ _ i hd hn hx h
  · have hne : drawdown_series values ≠ [] := by
      intro h
      have hl := congrArg List.length h
      rw [length_drawdown, List.length_nil] at hl
      omega
    exact drawdown_mem_nonpos values _ (seriesMin_mem hne)

/-- C8 witness: a concrete two-point declining series. -/
theorem drawdown_spec_witness : max_drawdown [100, 50] ≤ 0 :=
  (drawdown_spec [100, 50] (by norm_num)).2.2

/-- C9: for every nonempty per-period totals series and every milestone of
the fixed ascending list, the milestone is marked iff it lies strictly
between the series' minimum and maximum, and a mark is placed at the first
index whose value reaches the milestone: that value is at least the
milestone and every earlier value is below it. -/
theorem milestone_marks_spec (series : List ℚ) (hne : series ≠ [])
    (m : ℚ) (hm : m ∈ milestones) :
    ((∃ i, (m, i) ∈ milestone_marks series) ↔
      seriesMin series < m ∧ m < seriesMax series) ∧
    ∀ i, (m, i) ∈ milestone_marks series →
      ∃ hi : i < series.length,
        m ≤ series[i] ∧ ∀ j (hj : j < i), series[j] < m := by
  have hchar : ∀ i : ℕ, (m, i) ∈ milestone_marks series ↔
      (seriesMin series < m ∧ m < seriesMax series) ∧
        i = series.findIdx fun v => decide (m ≤ v) := by
    intro i
    rw [milestone_marks, List.mem_filterMap]
    constructor
    · rintro ⟨a, ha, hfa⟩
      by_cases hcond : seriesMin series < a ∧ a < seriesMax series
      · rw [if_pos hcond] at hfa
        have h1 : a = m := congrArg Prod.fst (Option.some.inj hfa)
        have h2 : (series.findIdx fun v => decide (a ≤ v)) = i :=
          congrArg Prod.snd (Option.some.inj hfa)
        subst h1
        exact ⟨hcond, h2.symm⟩
      · rw [if_neg hcond] at hfa
        exact absurd hfa (by simp)
    · rintro ⟨hcond, rfl⟩
      exact ⟨m, hm, by rw [if_pos hcond]⟩
  constructor
  · constructor
    · rintro ⟨i, hi⟩
      exact ((hchar i).mp hi).1
    · intro hcond
      exact ⟨_, (hchar _).mpr ⟨hcond, rfl⟩⟩
  · intro i hi
    rcases (hchar i).mp hi with ⟨⟨_, hmax⟩, rfl⟩
    have hex : ∃ x ∈ series, (fun v => decide (m ≤ v)) x = true := by
      refine ⟨seriesMax series, seriesMax_mem hne, ?_⟩
      exact decide_eq_true_eq.mpr (le_of_lt hmax)
    have hlt := List.findIdx_lt_length_of_exists hex
    refine ⟨hlt, ?_, ?_⟩
    · have hget : decide
          (m ≤ series[series.findIdx fun v => decide (m ≤ v)]) = true :=
        @List.findIdx_getElem _ _ _ hlt
      exact decide_eq_true_eq.mp hget
    · intro j hj
      have hfalse : decide (m ≤ series[j]) = false :=
        List.not_of_lt_findIdx hj
      exact lt_of_not_le (of_decide_eq_false hfalse)

/-- C9 witness: milestone 100000 on a series rising from 50000 to 150000. -/
theorem milestone_marks_spec_witness :
    ((∃ i, ((100000 : ℚ), i) ∈ milestone_marks [50000, 150000]) ↔
      seriesMin [50000, 150000] < (100000 : ℚ) ∧
        (100000 : ℚ) < seriesMax [50000, 150000]) ∧
    ∀ i, ((100000 : ℚ), i) ∈ milestone_marks [50000, 150000] →
      ∃ hi : i < ([50000, 150000] : List ℚ).length,
        (100000 : ℚ) ≤ ([50000, 150000] : List ℚ)[i] ∧
        ∀ j (hj : j < i), ([50000, 150000] : List ℚ)[j] < 100000 :=
  milestone_marks_spec [50000, 150000] (by simp) 100000 (by simp [milestones])

/-! ### Growth projection lemmas -/

theorem monthlyRate_zero : ∀ freq : CompoundFreq, monthlyRate 0 freq = 0
  | CompoundFreq.monthly => by rw [monthlyRate]; norm_num
  | CompoundFreq.annually => by
    rw [monthlyRate]
    norm_num [Real.one_rpow]

/-! ### Claim theorems: months to goal, branch structure -/

/-- C2: `calculate_months_to_goal` returns 0 whenever the goal is at most
the current value; in the remaining cases, taken in the code's order:
returns none when the derived monthly rate and the contribution are both
zero; returns the linear closed form `(goal - current) / contribution` when
the monthly rate is zero and the contribution is positive; and with a zero
contribution and nonzero monthly rate returns the logarithmic closed form
`log(goal/current) / log(1 + monthly_rate)` when the current value is
positive, and none when it is nonpositive. -/
theorem months_to_goal_cases (current_value goal_amount monthly_contribution
    annual_return_rate : ℝ) (freq : CompoundFreq) :
    (goal_amount ≤ current_value →
      calculate_months_to_goal current_value goal_amount monthly_contribution
        annual_return_rate freq = some 0) ∧
    (current_value < goal_amount →
      monthlyRate annual_return_rate freq = 0 → monthly_contribution = 0 →
      calculate_months_to_goal current_value goal_amount monthly_contribution
        annual_return_rate freq = none) ∧
    (current_value < goal_amount →
      monthlyRate annual_return_rate freq = 0 → 0 < monthly_contribution →
      calculate_months_to_goal current_value goal_amount monthly_contribution
        annual_return_rate freq
        = some ((goal_amount - current_value) / monthly_contribution)) ∧
    (current_value < goal_amount → monthly_contribution = 0 →
      monthlyRate annual_return_rate freq ≠ 0 →
      (0 < current_value →
        calculate_months_to_goal current_value goal_amount monthly_contribution
          annual_return_rate freq
          = some (Real.log (goal_amount / current_value) /
              Real.log (1 + monthlyRate annual_return_rate freq))) ∧
      (current_value ≤ 0 →
        calculate_months_to_goal current_value goal_amount monthly_contribution
          annual_return_rate freq = none)) := by
  refine ⟨?_, ?_, ?_, ?_⟩
  · intro h
    rw [calculate_months_to_goal, if_pos h]
  · intro hlt hr hc
    rw [calculate_months_to_goal, if_neg (not_le.mpr hlt)]
    by_cases hA : annual_return_rate = 0
    · rw [if_pos ⟨hA, hc⟩]
    · rw [if_neg fun h => hA h.1]
      simp only
      rw [if_pos hr, if_neg (by rw [hc]; exact lt_irrefl 0)]
  · intro hlt hr hc
    rw [calculate_months_to_goal, if_neg (not_le.mpr hlt),
      if_neg fun h => by rw [h.2] at hc; exact lt_irrefl 0 hc]
    simp only
    rw [if_pos hr, if_pos hc]
  · intro hlt hc hr
    rw [calculate_months_to_goal, if_neg (not_le.mpr hlt),
      if_neg fun h => hr (by rw [h.1, monthlyRate_zero])]
    simp only
    rw [if_neg hr, if_pos hc]
    constructor
    · intro hpos
      rw [if_neg (not_le.mpr hpos)]
    · intro hnonpos
      rw [if_pos hnonpos]

/-- C2 witness: zero rate, positive contribution, goal above current value:
the linear closed form at a concrete input. -/
theorem months_to_goal_cases_witness :
    calculate_months_to_goal 1000 2000 500 0 CompoundFreq.monthly
      = some (((2000 : ℝ) - 1000) / 500) :=
  (months_to_goal_cases 1000 2000 500 0 CompoundFreq.monthly).2.2.1
    (by norm_num) (by rw [monthlyRate]; norm_num) (by norm_num)

/-! ### Claim theorems: projection trace -/

theorem projAux_balance_decomp (cur goal r c : ℝ) :
    ∀ (f month : ℕ) (b tc : ℝ),
      ∀ row ∈ projAux cur goal r c f month b tc,
        row.2.1 = cur + row.2.2.1 + row.2.2.2
  | 0, month, b, tc, row, hrow => by
    simp only [projAux, List.mem_singleton] at hrow
    subst hrow
    dsimp only
    ring
  | f + 1, month, b, tc, row, hrow => by
    simp only [projAux] at hrow
    rcases List.mem_cons.mp hrow with rfl | h
    · dsimp only
      ring
    · by_cases hg : goal ≤ b
      · rw [if_pos hg] at h
        exact absurd h (List.not_mem_nil row)
      · rw [if_neg hg] at h
        exact projAux_balance_decomp cur goal r c f (month + 1) _ _ row h

theorem projAux_month_index (cur goal r c : ℝ) :
    ∀ (f month : ℕ) (b tc : ℝ) (i : ℕ)
      (hi : i < (projAux cur goal r c f month b tc).length),
      (projAux cur goal r c f month b tc)[i].1 = month + i
  | 0, month, b, tc, i, hi => by
    simp only [projAux, List.length_singleton] at hi
    match i, hi with
    | 0, _ => rfl
  | f + 1, month, b, tc, i, hi => by
    match i, hi with
    | 0, _ => rfl
    | j + 1, hi =>
      simp only [projAux, List.length_cons] at hi
      by_cases hg : goal ≤ b
      · rw [if_pos hg] at hi
        simp at hi
      · rw [if_neg hg] at hi
        have hj : j < (projAux cur goal r c f (month + 1)
            (b * (1 + r) + c) (tc + c)).length := Nat.lt_of_succ_lt_succ hi
        have hrec := projAux_month_index cur goal r c f (month + 1)
          (b * (1 + r) + c) (tc + c) j hj
        simp only [projAux, if_neg hg, List.getElem_cons_succ]
        rw [hrec]
        omega

theorem projAux_first_reach (cur goal r c : ℝ) :
    ∀ (f month : ℕ) (b tc : ℝ) (i : ℕ)
      (hi : i < (projAux cur goal r c f month b tc).length),
      goal ≤ (projAux cur goal r c f month b tc)[i].2.1 →
      i + 1 = (projAux cur goal r c f month b tc).length
  | 0, month, b, tc, i, hi, _ => by
    simp only [projAux, List.length_singleton] at hi ⊢
    omega
  | f + 1, month, b, tc, i, hi, hreach => by
    match i, hi with
    | 0, _ =>
      have hb : goal ≤ b := hreach
      simp only [projAux, if_pos hb, List.length_cons, List.length_nil]
    | j + 1, hi =>
      simp only [projAux, List.length_cons] at hi ⊢
      by_cases hg : goal ≤ b
      · rw [if_pos hg] at hi
        simp at hi
      · rw [if_neg hg] at hi ⊢
        have hj : j < (projAux cur goal r c f (month + 1)
            (b * (1 + r) + c) (tc + c)).length := Nat.lt_of_succ_lt_succ hi
        have hreach' : goal ≤ (projAux cur goal r c f (month + 1)
            (b * (1 + r) + c) (tc + c))[j].2.1 := by
          simp only [projAux, if_neg hg, List.getElem_cons_succ] at hreach
          exact hreach
        have := projAux_first_reach cur goal r c f (month + 1)
          (b * (1 + r) + c) (tc + c) j hj hreach'
        omega

/-- C6: every row of the projection trace decomposes its balance as the
constant starting principal plus cumulative contributions plus cumulative
growth, rows are numbered by month from 0, and any row whose balance has
reached the goal is the last row emitted (the trace stops there, short of
the caller-supplied cap). -/
theorem projection_trace_spec (current_value goal_amount
    monthly_contribution annual_return_rate : ℝ) (freq : CompoundFreq)
    (max_months : ℕ) :
    (∀ row ∈ generate_projection_data current_value goal_amount
        monthly_contribution annual_return_rate freq max_months,
      row.2.1 = current_value + row.2.2.1 + row.2.2.2) ∧
    (∀ i (hi : i < (generate_projection_data current_value goal_amount
        monthly_contribution annual_return_rate freq max_months).length),
      (generate_projection_data current_value goal_amount
        monthly_contribution annual_return_rate freq max_months)[i].1 = i) ∧
    (∀ i (hi : i < (generate_projection_data current_value goal_amount
        monthly_contribution annual_return_rate freq max_months).length),
      goal_amount ≤ (generate_projection_data current_value goal_amount
        monthly_contribution annual_return_rate freq max_months)[i].2.1 →
      i + 1 = (generate_projection_data current_value goal_amount
        monthly_contribution annual_return_rate freq max_months).length) := by
  refine ⟨?_, ?_, ?_⟩
  · intro row hrow
    exact projAux_balance_decomp _ _ _ _ _ _ _ _ row hrow
  · intro i hi
    have hi' : i < (projAux current_value goal_amount
        (monthlyRate annual_return_rate freq) monthly_contribution
        max_months 0 current_value 0).length := hi
    exact (projAux_month_index current_value goal_amount
      (monthlyRate annual_return_rate freq) monthly_contribution
      max_months 0 current_value 0 i hi').trans (Nat.zero_add i)
  · intro i hi hreach
    exact projAux_first_reach _ _ _ _ _ _ _ _ i hi hreach

/-! ### Loop lemmas for the iterative simulation -/

theorem goalLoop_no_reach (goal r c start : ℝ) :
    ∀ (fuel k : ℕ),
      (∀ j, k ≤ j → j < k + fuel → balanceIter r c start j < goal) →
      goalLoop goal r c fuel (balanceIter r c start k) k
        = (k + fuel, balanceIter r c start (k + fuel))
  | 0, k, _ => by rw [goalLoop, Nat.add_zero]
  | fuel + 1, k, h => by
    rw [goalLoop, if_pos (h k le_rfl (by omega))]
    have hrec := goalLoop_no_reach goal r c start fuel (k + 1)
      fun j h1 h2 => h j (by omega) (by omega)
    rw [show k + (fuel + 1) = k + 1 + fuel by omega]
    exact hrec

theorem goalLoop_reach (goal r c start : ℝ) (n : ℕ)
    (hn : goal ≤ balanceIter r c start n)
    (hfirst : ∀ j < n, balanceIter r c start j < goal) :
    ∀ (fuel k : ℕ), k ≤ n → n ≤ k + fuel →
      goalLoop goal r c fuel (balanceIter r c start k) k
        = (n, balanceIter r c start n)
  | 0, k, hk, hk' => by
    have : k = n := by omega
    subst this
    rw [goalLoop]
  | fuel + 1, k, hk, hk' => by
    by_cases hkn : k = n
    · subst hkn
      rw [goalLoop, if_neg (not_lt.mpr hn)]
    · have hklt : k < n := lt_of_le_of_ne hk hkn
      rw [goalLoop, if_pos (hfirst k hklt)]
      exact goalLoop_reach goal r c start n hn hfirst fuel (k + 1)
        (by omega) (by omega)

theorem balanceIter_pos_step (r c start : ℝ) (hr : 0 < r) (hc : 0 < c)
    (hs : 0 ≤ start) :
    ∀ n, 0 ≤ balanceIter r c start n ∧
      balanceIter r c start n < balanceIter r c start (n + 1)
  | 0 => by
    constructor
    · exact hs
    · show start < start * (1 + r) + c
      nlinarith
  | n + 1 => by
    obtain ⟨h0, _⟩ := balanceIter_pos_step r c start hr hc hs n
    constructor
    · show 0 ≤ balanceIter r c start n * (1 + r) + c
      nlinarith
    · show balanceIter r c start (n + 1)
        < balanceIter r c start (n + 1) * (1 + r) + c
      have h1 : 0 ≤ balanceIter r c start (n + 1) := by
        show 0 ≤ balanceIter r c start n * (1 + r) + c
        nlinarith
      nlinarith

theorem balanceIter_strictMono (r c start : ℝ) (hr : 0 < r) (hc : 0 < c)
    (hs : 0 ≤ start) : StrictMono (balanceIter r c start) :=
  strictMono_nat_of_lt_succ fun n =>
    (balanceIter_pos_step r c start hr hc hs n).2

/-! ### Claim theorems: the iterative general case -/

/-- C5 (amended): in the general case (nonzero derived monthly rate and
nonzero contribution), `calculate_months_to_goal` follows the iteration
`balance = balance * (1 + monthly_rate) + contribution` from the current
value and returns the smallest month count at which the balance reaches
the goal whenever that count is strictly below the 1200-month cap; when no
month below 1200 reaches the goal (even if month 1200 itself would), it
returns none. -/
theorem months_to_goal_loop_amended (current_value goal_amount
    monthly_contribution annual_return_rate : ℝ) (freq : CompoundFreq)
    (h1 : ¬ goal_amount ≤ current_value)
    (h2 : monthlyRate annual_return_rate freq ≠ 0)
    (h3 : monthly_contribution ≠ 0) :
    (∀ n : ℕ, n < 1200 →
      goal_amount ≤ balanceIter (monthlyRate annual_return_rate freq)
        monthly_contribution current_value n →
      (∀ j < n, balanceIter (monthlyRate annual_return_rate freq)
        monthly_contribution current_value j < goal_amount) →
      calculate_months_to_goal current_value goal_amount
        monthly_contribution annual_return_rate freq = some (n : ℝ)) ∧
    ((∀ n < 1200, balanceIter (monthlyRate annual_return_rate freq)
        monthly_contribution current_value n < goal_amount) →
      calculate_months_to_goal current_value goal_amount
        monthly_contribution annual_return_rate freq = none) := by
  constructor
  · intro n hn hreach hfirst
    rw [calculate_months_to_goal, if_neg h1, if_neg fun h => h3 h.2]
    simp only
    rw [if_neg h2, if_neg h3]
    have hloop := goalLoop_reach goal_amount
      (monthlyRate annual_return_rate freq) monthly_contribution
      current_value n hreach hfirst 1200 0 (Nat.zero_le n) (by omega)
    rw [show balanceIter (monthlyRate annual_return_rate freq)
        monthly_contribution current_value 0 = current_value from rfl] at hloop
    rw [hloop]
    rw [if_neg (by omega)]
  · intro hbelow
    rw [calculate_months_to_goal, if_neg h1, if_neg fun h => h3 h.2]
    simp only
    rw [if_neg h2, if_neg h3]
    have hloop := goalLoop_no_reach goal_amount
      (monthlyRate annual_return_rate freq) monthly_contribution
      current_value 1200 0 fun j _ hj => hbelow j (by omega)
    rw [show balanceIter (monthlyRate annual_return_rate freq)
        monthly_contribution current_value 0 = current_value from rfl] at hloop
    rw [hloop]
    rw [if_pos (by omega)]

/-- C5 witness: 12% annual return compounded monthly and a 1000 monthly
contribution reach 2000 from 1000 at month 1, below the cap. -/
theorem months_to_goal_loop_amended_witness :
    calculate_months_to_goal 1000 2000 1000 12 CompoundFreq.monthly
      = some ((1 : ℕ) : ℝ) :=
  (months_to_goal_loop_amended 1000 2000 1000 12 CompoundFreq.monthly
      (by norm_num) (by rw [monthlyRate]; norm_num) (by norm_num)).1
    1 (by norm_num)
    (by rw [monthlyRate]; show (2000 : ℝ) ≤ 1000 * (1 + 12 / 100 / 12) + 1000; norm_num)
    (by
      intro j hj
      interval_cases j
      rw [monthlyRate]
      show (1000 : ℝ) < 2000
      norm_num)

/-- C5 counterexample: starting from 0 with contribution 1 and a 1%
derived monthly rate, take the goal to be the balance at exactly month
1200.  The smallest month count reaching the goal is 1200, which is at
most 1200, yet the function returns none rather than that count: the
post-loop check `months >= max_months` also rejects a goal first reached
at exactly the cap. -/
theorem months_to_goal_cap_cex :
    calculate_months_to_goal 0
      (balanceIter (monthlyRate 12 CompoundFreq.monthly) 1 0 1200) 1 12
      CompoundFreq.monthly = none ∧
    (∀ j < 1200, balanceIter (monthlyRate 12 CompoundFreq.monthly) 1 0 j
      < balanceIter (monthlyRate 12 CompoundFreq.monthly) 1 0 1200) ∧
    calculate_months_to_goal 0
      (balanceIter (monthlyRate 12 CompoundFreq.monthly) 1 0 1200) 1 12
      CompoundFreq.monthly ≠ some ((1200 : ℕ) : ℝ) := by
  have hr : (0 : ℝ) < monthlyRate 12 CompoundFreq.monthly := by
    rw [monthlyRate]
    norm_num
  have hmono := balanceIter_strictMono (monthlyRate 12 CompoundFreq.monthly)
    1 0 hr (by norm_num) le_rfl
  have hbelow : ∀ j < 1200,
      balanceIter (monthlyRate 12 CompoundFreq.monthly) 1 0 j
        < balanceIter (monthlyRate 12 CompoundFreq.monthly) 1 0 1200 :=
    fun j hj => hmono hj
  have hnone : calculate_months_to_goal 0
      (balanceIter (monthlyRate 12 CompoundFreq.monthly) 1 0 1200) 1 12
      CompoundFreq.monthly = none := by
    have hg : ¬ balanceIter (monthlyRate 12 CompoundFreq.monthly) 1 0 1200
        ≤ (0 : ℝ) := by
      push_neg
      have h0 : balanceIter (monthlyRate 12 CompoundFreq.monthly) 1 0 0
          = (0 : ℝ) := rfl
      have := hmono (show 0 < 1200 by norm_num)
      rw [h0] at this
      exact this
    rw [calculate_months_to_goal, if_neg hg,
      if_neg fun h => by norm_num at h]
    simp only
    rw [if_neg (ne_of_gt hr), if_neg (by norm_num : (1 : ℝ) ≠ 0)]
    have hloop := goalLoop_no_reach
      (balanceIter (monthlyRate 12 CompoundFreq.monthly) 1 0 1200)
      (monthlyRate 12 CompoundFreq.monthly) 1 0 1200 0
      fun j _ hj => hbelow j (by omega)
    rw [show balanceIter (monthlyRate 12 CompoundFreq.monthly) 1 0 0
        = (0 : ℝ) from rfl] at hloop
    rw [hloop]
    rw [if_pos (by omega)]
  refine ⟨hnone, hbelow, ?_⟩
  rw [hnone]
  intro h
  exact Option.noConfusion h

theorem balanceIter_zero_contrib (r start : ℝ) :
    ∀ n, balanceIter r 0 start n = start * (1 + r) ^ n
  | 0 => by rw [balanceIter, pow_zero, mul_one]
  | n + 1 => by
    show balanceIter r 0 start n * (1 + r) + 0 = start * (1 + r) ^ (n + 1)
    rw [balanceIter_zero_contrib r start n, pow_succ]
    ring

/-- C7: with current value 1000, goal 2000, zero contribution and a
positive derived monthly rate, the function returns the logarithmic
closed form, and that value is within one month of the count `N` at which
the iteration `balance = balance * (1 + monthly_rate)` starting from 1000
first reaches 2000. -/
theorem months_to_goal_log_vs_iteration (r : ℝ)
    (hrate : 0 < monthlyRate r CompoundFreq.monthly) (N : ℕ)
    (hreach : (2000 : ℝ)
      ≤ balanceIter (monthlyRate r CompoundFreq.monthly) 0 1000 N)
    (hfirst : ∀ k < N,
      balanceIter (monthlyRate r CompoundFreq.monthly) 0 1000 k < 2000) :
    calculate_months_to_goal 1000 2000 0 r CompoundFreq.monthly
      = some (Real.log ((2000 : ℝ) / 1000) /
          Real.log (1 + monthlyRate r CompoundFreq.monthly)) ∧
    |Real.log ((2000 : ℝ) / 1000) /
        Real.log (1 + monthlyRate r CompoundFreq.monthly) - (N : ℝ)| ≤ 1 := by
  have h1ρ : (0 : ℝ) < 1 + monthlyRate r CompoundFreq.monthly := by linarith
  have hL : 0 < Real.log (1 + monthlyRate r CompoundFreq.monthly) :=
    Real.log_pos (by linarith)
  constructor
  · rw [calculate_months_to_goal,
      if_neg (by norm_num : ¬ (2000 : ℝ) ≤ 1000),
      if_neg (fun h => by
        rw [h.1, monthlyRate_zero] at hrate
        exact lt_irrefl 0 hrate)]
    simp only
    rw [if_neg (ne_of_gt hrate), if_pos trivial,
      if_neg (by norm_num : ¬ (1000 : ℝ) ≤ 0)]
  · rw [balanceIter_zero_contrib] at hreach
    have h2 : ((2000 : ℝ) / 1000) = 2 := by norm_num
    rw [h2]
    have hN : 1 ≤ N := by
      rcases Nat.eq_zero_or_pos N with rfl | h
      · rw [pow_zero, mul_one] at hreach
        norm_num at hreach
      · exact h
    have hpowN : (2 : ℝ) ≤ (1 + monthlyRate r CompoundFreq.monthly) ^ N := by
      linarith
    have hupper : Real.log 2 /
        Real.log (1 + monthlyRate r CompoundFreq.monthly) ≤ (N : ℝ) := by
      rw [div_le_iff₀ hL]
      have := Real.log_le_log (by norm_num : (0 : ℝ) < 2) hpowN
      rw [Real.log_pow] at this
      exact this
    have hlower : (N : ℝ) - 1 < Real.log 2 /
        Real.log (1 + monthlyRate r CompoundFreq.monthly) := by
      have hk := hfirst (N - 1) (by omega)
      rw [balanceIter_zero_contrib] at hk
      have hpow : (1 + monthlyRate r CompoundFreq.monthly) ^ (N - 1)
          < 2 := by linarith
      have hlog := Real.log_lt_log (pow_pos h1ρ (N - 1)) hpow
      rw [Real.log_pow, Nat.cast_sub hN, Nat.cast_one] at hlog
      rw [lt_div_iff₀ hL]
      exact hlog
    rw [abs_le]
    constructor
    · linarith
    · linarith

/-- C7 witness: a 1200% annual rate gives a derived monthly rate of 1, so
the balance doubles each month and first reaches 2000 at month 1. -/
theorem months_to_goal_log_vs_iteration_witness :
    calculate_months_to_goal 1000 2000 0 1200 CompoundFreq.monthly
      = some (Real.log ((2000 : ℝ) / 1000) /
          Real.log (1 + monthlyRate 1200 CompoundFreq.monthly)) ∧
    |Real.log ((2000 : ℝ) / 1000) /
        Real.log (1 + monthlyRate 1200 CompoundFreq.monthly)
      - ((1 : ℕ) : ℝ)| ≤ 1 :=
  months_to_goal_log_vs_iteration 1200 (by rw [monthlyRate]; norm_num) 1
    (by
      show (2000 : ℝ)
        ≤ 1000 * (1 + monthlyRate 1200 CompoundFreq.monthly) + 0
      rw [monthlyRate]
      norm_num)
    (by
      intro k hk
      interval_cases k
      show (1000 : ℝ) < 2000
      norm_num)

end NetworthTracker
